import Mathlib

/-!
Shallow embedding of `src/zotero_to_neo4j.py` (class `ZoteroToNeo4jImporter`).

Strings from the CSV are modelled as `List Char` (`PyStr`).  A pandas cell is
either a string or the missing-value marker `NaN` (`Cell.nan`); a column that
is absent from the row altogether is `Option.none`.  The Neo4j store is
modelled through the "merge a node/edge by key" primitive the importer relies
on: every node map is a function from its natural key, every relationship set
is a boolean membership function, so a `MERGE` is an idempotent keyed update.
`datetime()` is modelled by a run-supplied `Nat` timestamp.
-/

/-- Python strings, modelled as lists of characters. -/
abbrev PyStr := List Char

/-- One pandas cell: a string value or the float-`NaN` missing marker. -/
inductive Cell where
  | str (s : PyStr)
  | nan
deriving DecidableEq, Repr

/-- Values that end up in the Python property dict sent to Neo4j. -/
inductive PVal where
  | cell (c : Cell)
  | bool (b : Bool)
  | int (n : Nat)
  | null
deriving DecidableEq, Repr

/-- `series.get(col, default)`: the cell if the column exists, else the default. -/
def getCellD (v : Option Cell) (d : Cell) : Cell := v.getD d

/-- Python truthiness of a cell: `bool("") = False`, `bool(nan) = True`. -/
def pyTruthy (c : Cell) : Bool :=
  match c with
  | .str s => ¬ s.isEmpty
  | .nan => true

/-- Python truthiness of `series.get(col)` (no default): `bool(None) = False`. -/
def pyTruthyOpt (v : Option Cell) : Bool :=
  match v with
  | none => false
  | some c => pyTruthy c

/-- Python `x or y` on cells (used for the journal name lookup). -/
def pyOr (a b : Cell) : Cell := if pyTruthy a then a else b

/-- The whitespace class of Python's `\s` and `str.strip()` (ASCII part). -/
def isPySpace (c : Char) : Bool :=
  c = ' ' ∨ c = '\t' ∨ c = '\n' ∨ c = '\r' ∨ c = '\x0b' ∨ c = '\x0c'

/-- Python `str.strip()`: drop leading and trailing whitespace. -/
def pyStrip (cs : PyStr) : PyStr :=
  ((cs.dropWhile isPySpace).reverse.dropWhile isPySpace).reverse

/-- Python `s.split(';')`: split at every semicolon, keeping empty pieces. -/
def pySplitSemi : PyStr → List PyStr
  | [] => [[]]
  | c :: cs =>
    if c = ';' then [] :: pySplitSemi cs
    else
      match pySplitSemi cs with
      | [] => [[c]]
      | t :: ts => (c :: t) :: ts

/-- Python `needle in hay` on strings: substring containment. -/
def containsSub (needle : PyStr) : PyStr → Bool
  | [] => needle.isPrefixOf []
  | c :: cs => needle.isPrefixOf (c :: cs) || containsSub needle cs

/-- Try to match the regex `marker\s*(\d+)` anchored at the given position:
the literal marker, then greedy whitespace, then at least one digit.  Returns
the digit group.  (`\d+` cannot consume whitespace, so greedy `\s*` never
backtracks usefully here.) -/
def matchNumAt (marker : PyStr) (cs : PyStr) : Option PyStr :=
  if marker.isPrefixOf cs then
    let ds := ((cs.drop marker.length).dropWhile isPySpace).takeWhile Char.isDigit
    if ds.isEmpty then none else some ds
  else none

/-- `re.search(marker + r'\s*(\d+)', s)`: leftmost position where the pattern
matches, returning the digit group. -/
def searchNum (marker : PyStr) : PyStr → Option PyStr
  | [] => matchNumAt marker []
  | c :: cs =>
    match matchNumAt marker (c :: cs) with
    | some ds => some ds
    | none => searchNum marker cs

/-- The `\s*([^\n]+)` tail of the `major:` regex, with greedy backtracking:
consume as much whitespace as possible, then at least one non-newline
character; on failure give whitespace back one character at a time. -/
def matchSpacesThenLine : PyStr → Option PyStr
  | [] => none
  | c :: cs =>
    if isPySpace c then
      match matchSpacesThenLine cs with
      | some g => some g
      | none => if c = '\n' then none else some ((c :: cs).takeWhile (fun x => x ≠ '\n'))
    else
      if c = '\n' then none else some ((c :: cs).takeWhile (fun x => x ≠ '\n'))

/-- Try to match `major:\s*([^\n]+)` anchored at the given position. -/
def matchMajorAt (cs : PyStr) : Option PyStr :=
  if ("major:".toList).isPrefixOf cs then
    matchSpacesThenLine (cs.drop 6)
  else none

/-- `re.search(r'major:\s*([^\n]+)', s)`. -/
def searchMajor : PyStr → Option PyStr
  | [] => matchMajorAt []
  | c :: cs =>
    match matchMajorAt (c :: cs) with
    | some g => some g
    | none => searchMajor cs

/-- Python `int` on a digit string. -/
def natOfDigits (ds : PyStr) : Nat :=
  ds.foldl (fun n c => 10 * n + (c.toNat - 48)) 0

/-- First-match lookup in a Python dict modelled as an association list. -/
def lookupKV : List (String × PVal) → String → Option PVal
  | [], _ => none
  | (k, v) :: rest, κ => if k = κ then some v else lookupKV rest κ

/-- `_parse_extra_info`: extract `download_count` / `cnki_citation` /
`major_field` facts from the free-text `Extra` cell.  A non-string cell yields
the empty dict; each fact is guarded by a substring test and a regex search,
exactly as in the source. -/
def parse_extra_info (c : Cell) : List (String × PVal) :=
  match c with
  | .nan => []
  | .str s =>
    let d1 : List (String × PVal) :=
      if containsSub ("download:".toList) s then
        match searchNum ("download:".toList) s with
        | some ds => [("download_count", PVal.int (natOfDigits ds))]
        | none => []
      else []
    let d2 : List (String × PVal) :=
      if containsSub ("CNKICite:".toList) s then
        match searchNum ("CNKICite:".toList) s with
        | some ds => [("cnki_citation", PVal.int (natOfDigits ds))]
        | none => []
      else []
    let d3 : List (String × PVal) :=
      if containsSub ("major:".toList) s then
        match searchMajor s with
        | some g => [("major_field", PVal.cell (Cell.str (pyStrip g)))]
        | none => []
      else []
    d1 ++ d2 ++ d3

/-- `_split_authors`: split on `;`, strip each piece, keep the non-empty ones.
A falsy or non-string argument yields the empty list. -/
def split_authors (c : Cell) : List PyStr :=
  match c with
  | .nan => []
  | .str s =>
    if s.isEmpty then []
    else (pySplitSemi s).filterMap
      (fun a => if (pyStrip a).isEmpty then none else some (pyStrip a))

/-- `_split_tags`: textually identical to `_split_authors` in the source. -/
def split_tags (c : Cell) : List PyStr :=
  match c with
  | .nan => []
  | .str s =>
    if s.isEmpty then []
    else (pySplitSemi s).filterMap
      (fun a => if (pyStrip a).isEmpty then none else some (pyStrip a))

/-- `list(set(xs))`: duplicate removal (CPython's set order is unspecified;
we fix the first-occurrence order, and no theorem below depends on it). -/
def uniqueFirst : List PyStr → List PyStr
  | [] => []
  | a :: l => a :: uniqueFirst (l.filter (fun x => x ≠ a))
termination_by l => l.length
decreasing_by
  simp only [List.length_cons]
  exact Nat.lt_succ_of_le (List.length_filter_le _ _)

/-- One row of the dataframe returned by `parse_csv`, after the column
renaming.  Each field is `none` when the column is absent from the CSV;
the last four fields keep their raw (unrenamed) column names `Publisher`,
`publisher` (lowercase), `Place`, `ISSN`, which `_add_extra_nodes` reads
directly. -/
structure CsvRow where
  zotero_key : Option Cell := none
  item_type : Option Cell := none
  publication_year : Option Cell := none
  authors : Option Cell := none
  title : Option Cell := none
  publication_title : Option Cell := none
  doi : Option Cell := none
  url : Option Cell := none
  abstract : Option Cell := none
  date : Option Cell := none
  date_added : Option Cell := none
  date_modified : Option Cell := none
  pages : Option Cell := none
  manual_tags : Option Cell := none
  auto_tags : Option Cell := none
  file_attachments : Option Cell := none
  extra_info : Option Cell := none
  publisher_cap : Option Cell := none
  publisher_low : Option Cell := none
  place_col : Option Cell := none
  issn_col : Option Cell := none
deriving DecidableEq, Repr

/-- `df[col].fillna('')` on one cell: `NaN` becomes the empty string. -/
def fillEmpty : Option Cell → Option Cell
  | some Cell.nan => some (Cell.str [])
  | v => v

/-- The null-handling step of `parse_csv`: only the `authors`, `manual_tags`
and `auto_tags` columns have their `NaN` cells replaced by `''`. -/
def normalizeRow (r : CsvRow) : CsvRow :=
  { r with
    authors := fillEmpty r.authors
    manual_tags := fillEmpty r.manual_tags
    auto_tags := fillEmpty r.auto_tags }

/-- The `extra_info_parsed` column: present (as a parsed dict) exactly when
the `Extra` column exists, so `paper_row.get('extra_info_parsed', {})` is the
empty dict when that column is missing. -/
def extraParsed (r : CsvRow) : List (String × PVal) :=
  match r.extra_info with
  | none => []
  | some c => parse_extra_info c

/-- `series.get(col)` without a default, as a dict value (`None` → null). -/
def pvOfOpt (v : Option Cell) : PVal :=
  match v with
  | none => PVal.null
  | some c => PVal.cell c

/-- Python `dict` update of one key: overwrite the first occurrence in place,
else append. -/
def setKV : List (String × PVal) → String × PVal → List (String × PVal)
  | [], kv => [kv]
  | (k, v) :: rest, (κ, w) => if k = κ then (κ, w) :: rest else (k, v) :: setKV rest (κ, w)

/-- Python `base.update(upd)` on dicts-as-association-lists. -/
def updList (base upd : List (String × PVal)) : List (String × PVal) :=
  upd.foldl setKV base

/-- The `paper_properties` dict built at the top of `_import_paper`, in
source order, with the `extra_info_parsed` facts merged in when non-empty.
Slicing `paper_row.get('abstract', '')[:500]` raises a `TypeError` when the
abstract cell is `NaN` (a float), which aborts the record before any write:
this is the `Except.error` case. -/
def paper_properties (r : CsvRow) : Except Unit (List (String × PVal)) :=
  match getCellD r.abstract (Cell.str []) with
  | Cell.nan => Except.error ()
  | Cell.str a =>
    let lit : List (String × PVal) :=
      [("zotero_key", PVal.cell (getCellD r.zotero_key (Cell.str []))),
       ("title", PVal.cell (getCellD r.title (Cell.str []))),
       ("item_type", PVal.cell (getCellD r.item_type (Cell.str []))),
       ("publication_year", pvOfOpt r.publication_year),
       ("publication_title", PVal.cell (getCellD r.publication_title (Cell.str []))),
       ("doi", PVal.cell (getCellD r.doi (Cell.str []))),
       ("url", PVal.cell (getCellD r.url (Cell.str []))),
       ("abstract", PVal.cell (Cell.str (a.take 500))),
       ("date", PVal.cell (getCellD r.date (Cell.str []))),
       ("pages", PVal.cell (getCellD r.pages (Cell.str []))),
       ("has_pdf", PVal.bool (pyTruthyOpt r.file_attachments))]
    let extra := extraParsed r
    Except.ok (if extra.isEmpty then lit else updList lit extra)

/-- A `Paper` node: its property map and the `imported_at` stamp. -/
structure PaperNode where
  props : String → Option PVal
  imported_at : Nat

/-- The graph store.  Node maps are keyed by the natural `MERGE` key
(`zotero_key` for papers, the name for the rest); relationship sets are
membership functions keyed by the two endpoint keys.  The store's merge
primitive guarantees one node per key and no parallel edges of a type, so
keyed functions model it exactly. -/
@[ext]

structure GraphState where
  papers : Cell → Option PaperNode
  authors : PyStr → Option Cell
  keywords : PyStr → Bool
  publishers : PyStr → Bool
  journals : Cell → Option Cell
  subjects : PyStr → Bool
  authored_by : Cell → PyStr → Bool
  has_keyword : Cell → PyStr → Bool
  published_by : Cell → PyStr → Bool
  published_in : Cell → Cell → Bool
  belongs_to_subject : Cell → PyStr → Bool

/-- The empty store (after `MATCH (n) DETACH DELETE n`). -/
def emptyStore : GraphState where
  papers := fun _ => none
  authors := fun _ => none
  keywords := fun _ => false
  publishers := fun _ => false
  journals := fun _ => none
  subjects := fun _ => false
  authored_by := fun _ _ => false
  has_keyword := fun _ _ => false
  published_by := fun _ _ => false
  published_in := fun _ _ => false
  belongs_to_subject := fun _ _ => false

/-- `SET p += $properties` on a property map: dict keys win, the rest of the
node's properties survive. -/
def dictApply (f : String → Option PVal) (d : List (String × PVal)) : String → Option PVal :=
  fun κ => match lookupKV d κ with
    | some v => some v
    | none => f κ

/-- The property map `SET p +=` merges into: the existing node's map, or the
bare `{zotero_key: k}` map a fresh `MERGE` creates. -/
def basePropsOf (g : GraphState) (k : Cell) : String → Option PVal :=
  match g.papers k with
  | some n => n.props
  | none => fun κ => if κ = "zotero_key" then some (PVal.cell k) else none

/-- `MERGE (p:Paper {zotero_key: $k}) SET p += $properties, p.imported_at = t`:
create the node with its merge key if absent, then merge the dict and stamp
the time. -/
def mergePaperNode (g : GraphState) (k : Cell) (d : List (String × PVal)) (t : Nat) :
    GraphState :=
  { g with papers := fun k' =>
      if k' = k then some ⟨dictApply (basePropsOf g k) d, t⟩ else g.papers k' }

/-- `MERGE (a:Author {name: $name}) SET a.last_seen_in = $paper_title`. -/
def mergeAuthorNode (g : GraphState) (a : PyStr) (ti : Cell) : GraphState :=
  { g with authors := fun a' => if a' = a then some ti else g.authors a' }

/-- `MATCH (p:Paper ...) MATCH (a:Author ...) MERGE (p)-[:AUTHORED_BY]->(a)`:
the edge is only created when both matches succeed. -/
def mergeAuthoredBy (g : GraphState) (k : Cell) (a : PyStr) : GraphState :=
  if (g.papers k).isSome && (g.authors a).isSome then
    { g with authored_by := fun k' a' => g.authored_by k' a' || (decide (k' = k) && decide (a' = a)) }
  else g

/-- `MERGE (k:Keyword {name: $name})`. -/
def mergeKeywordNode (g : GraphState) (κ : PyStr) : GraphState :=
  { g with keywords := fun x => g.keywords x || decide (x = κ) }

/-- `MATCH (p:Paper ...) MATCH (k:Keyword ...) MERGE (p)-[:HAS_KEYWORD]->(k)`. -/
def mergeHasKeyword (g : GraphState) (k : Cell) (κ : PyStr) : GraphState :=
  if (g.papers k).isSome && g.keywords κ then
    { g with has_keyword := fun k' x => g.has_keyword k' x || (decide (k' = k) && decide (x = κ)) }
  else g

/-- `MERGE (pub:Publisher ...) WITH pub MATCH (p:Paper ...) MERGE
(p)-[:PUBLISHED_BY]->(pub)`: one query, so the node is always merged and the
edge needs only the paper match. -/
def mergePublisherAndEdge (g : GraphState) (p : PyStr) (k : Cell) : GraphState :=
  let g1 := { g with publishers := fun x => g.publishers x || decide (x = p) }
  if (g1.papers k).isSome then
    { g1 with published_by := fun k' x => g1.published_by k' x || (decide (k' = k) && decide (x = p)) }
  else g1

/-- `MERGE (j:Journal ...) SET j.issn = $issn WITH j MATCH (p:Paper ...)
MERGE (p)-[:PUBLISHED_IN]->(j)`. -/
def mergeJournalAndEdge (g : GraphState) (n i : Cell) (k : Cell) : GraphState :=
  let g1 := { g with journals := fun x => if x = n then some i else g.journals x }
  if (g1.papers k).isSome then
    { g1 with published_in := fun k' x => g1.published_in k' x || (decide (k' = k) && decide (x = n)) }
  else g1

/-- `MERGE (sub:Subject ...) WITH sub MATCH (p:Paper ...) MERGE
(p)-[:BELONGS_TO_SUBJECT]->(sub)`. -/
def mergeSubjectAndEdge (g : GraphState) (s : PyStr) (k : Cell) : GraphState :=
  let g1 := { g with subjects := fun x => g.subjects x || decide (x = s) }
  if (g1.papers k).isSome then
    { g1 with belongs_to_subject := fun k' x =>
        g1.belongs_to_subject k' x || (decide (k' = k) && decide (x = s)) }
  else g1

/-- The body of the author loop: `if author_name:` then merge the node and
the `AUTHORED_BY` edge. -/
def authorStep (k : Cell) (ti : Cell) (g : GraphState) (a : PyStr) : GraphState :=
  if a.isEmpty then g else mergeAuthoredBy (mergeAuthorNode g a ti) k a

/-- The body of the tag loop: `if tag_name:` then merge the node and the
`HAS_KEYWORD` edge. -/
def tagStep (k : Cell) (g : GraphState) (κ : PyStr) : GraphState :=
  if κ.isEmpty then g else mergeHasKeyword (mergeKeywordNode g κ) k κ

/-- The publisher probe of `_add_extra_nodes`: walk the candidate column list
`['Publisher', 'publisher', 'Publisher', 'Place']`, take the first column
that exists, is not `NaN`, and strips to a non-empty string. -/
def probePublisher : List (Option Cell) → Option PyStr
  | [] => none
  | v :: rest =>
    match v with
    | some (Cell.str s) => if (pyStrip s).isEmpty then probePublisher rest else some (pyStrip s)
    | _ => probePublisher rest

/-- The publisher value `_add_extra_nodes` resolves for a row. -/
def rowPublisher (r : CsvRow) : Option PyStr :=
  probePublisher [r.publisher_cap, r.publisher_low, r.publisher_cap, r.place_col]

/-- Python `series.get('item_type') == 'journalArticle'`. -/
def pyEqLit (v : Option Cell) (s : PyStr) : Bool :=
  match v with
  | some (Cell.str t) => t = s
  | _ => false

/-- The journal `(name, issn)` pair `_add_extra_nodes` resolves for a row:
`paper_row.get('Publication Title', '')` is always `''` after the renaming
done in `parse_csv`, so the `or` falls through to `publication_title`; the
node is only attempted for `journalArticle` rows with a truthy name. -/
def rowJournal (r : CsvRow) : Option (Cell × Cell) :=
  let j := pyOr (Cell.str []) (getCellD r.publication_title (Cell.str []))
  if pyTruthy j && pyEqLit r.item_type ("journalArticle".toList) then
    some (j, getCellD r.issn_col (Cell.str []))
  else none

/-- The subject `_add_extra_nodes` resolves: the `major_field` fact of the
parsed `Extra` dict, when truthy.  (`_parse_extra_info` only ever stores a
string under that key.) -/
def rowSubject (r : CsvRow) : Option PyStr :=
  match lookupKV (extraParsed r) "major_field" with
  | some (PVal.cell (Cell.str s)) => if s.isEmpty then none else some s
  | _ => none

/-- `_add_extra_nodes`: publisher, journal and subject upserts, each
conditional on a non-empty resolved value. -/
def add_extra_nodes (g : GraphState) (r : CsvRow) (k : Cell) : GraphState :=
  let g1 := match rowPublisher r with
    | some p => mergePublisherAndEdge g p k
    | none => g
  let g2 := match rowJournal r with
    | some (n, i) => mergeJournalAndEdge g1 n i k
    | none => g1
  match rowSubject r with
  | some s => mergeSubjectAndEdge g2 s k
  | none => g2

/-- The paper key used for every `MERGE`/`MATCH` in `_import_paper`. -/
def rowKey (r : CsvRow) : Cell := getCellD r.zotero_key (Cell.str [])

/-- `paper_properties['title']`, used as the authors' `last_seen_in` hint. -/
def rowTitle (r : CsvRow) : Cell := getCellD r.title (Cell.str [])

/-- The author list of a row. -/
def rowAuthors (r : CsvRow) : List PyStr :=
  split_authors (getCellD r.authors (Cell.str []))

/-- The merged manual/automatic tag list of a row, after `list(set(...))`. -/
def rowTags (r : CsvRow) : List PyStr :=
  uniqueFirst (split_tags (getCellD r.manual_tags (Cell.str [])) ++
    split_tags (getCellD r.auto_tags (Cell.str [])))

/-- `_import_paper`: build the property dict (which can raise), merge the
paper, the authors and their edges, the keywords and their edges, then the
extra nodes.  The error case happens before any write. -/
def import_paper (g : GraphState) (r : CsvRow) (t : Nat) : Except Unit GraphState :=
  match paper_properties r with
  | Except.error e => Except.error e
  | Except.ok d =>
    let k := rowKey r
    let g1 := mergePaperNode g k d t
    let g2 := (rowAuthors r).foldl (authorStep k (rowTitle r)) g1
    let g3 := (rowTags r).foldl (tagStep k) g2
    Except.ok (add_extra_nodes g3 r k)

/-- One iteration of the orchestrator loop body seen from the store: the
caught exception leaves the graph as it was. -/
def runRow (g : GraphState) (r : CsvRow) (t : Nat) : GraphState :=
  match import_paper g r t with
  | Except.ok g' => g'
  | Except.error _ => g

/-- The log lines the orchestrator emits. -/
inductive LogEntry where
  | cleared
  | started (total : Nat)
  | progress (done total : Nat)
  | importError (key : Cell)
  | finished (total : Nat)
deriving DecidableEq, Repr

/-- The logged key of a failed record: `row.get('zotero_key', 'N/A')`. -/
def logKey (r : CsvRow) : Cell := getCellD r.zotero_key (Cell.str ("N/A".toList))

/-- One iteration of the `for idx, row in df.iterrows()` loop: try the
import; on success maybe log progress, on failure log the error with the
record's key and keep going. -/
def orchStep (t total : Nat) :
    GraphState × Nat × List LogEntry → CsvRow → GraphState × Nat × List LogEntry
  | (g, idx, log), r =>
    match import_paper g r t with
    | Except.ok g' =>
      let log' := if (idx + 1) % 10 = 0 || idx + 1 = total
        then log ++ [LogEntry.progress (idx + 1) total] else log
      (g', idx + 1, log')
    | Except.error _ =>
      (g, idx + 1, log ++ [LogEntry.importError (logKey r)])

/-- `import_to_neo4j`: optional full wipe, then the per-record loop, then the
completion report.  `t` stands for the run's `datetime()` clock. -/
def import_to_neo4j (rows : List CsvRow) (clear_existing : Bool) (t : Nat)
    (g0 : GraphState) : GraphState × List LogEntry :=
  let g1 := if clear_existing then emptyStore else g0
  let log0 := (if clear_existing then [LogEntry.cleared] else []) ++
    [LogEntry.started rows.length]
  let res := rows.foldl (orchStep t rows.length) (g1, 0, log0)
  (res.1, res.2.2 ++ [LogEntry.finished rows.length])

/-- Forget every `imported_at` stamp (the only always-refreshed property). -/
def eraseImportedAt (g : GraphState) : GraphState :=
  { g with papers := fun k => (g.papers k).map (fun n => ⟨n.props, 0⟩) }

/-! ### The net effect of one record on the store -/

/-- Whether `_import_paper` succeeds on a record (its only failure point is
slicing a `NaN` abstract while building the property dict). -/
def rowOk (r : CsvRow) : Bool :=
  match paper_properties r with
  | Except.ok _ => true
  | Except.error _ => false

/-- The property dict of a record (junk value on the failing records). -/
def rowDict (r : CsvRow) : List (String × PVal) :=
  match paper_properties r with
  | Except.ok d => d
  | Except.error _ => []

/-- The journal node name a row resolves, if any. -/
def rowJournalName (r : CsvRow) : Option Cell := (rowJournal r).map Prod.fst

/-- The net effect of one successful `_import_paper` call on the store,
stated component-wise. -/
def applyRow (g : GraphState) (r : CsvRow) (t : Nat) : GraphState where
  papers := fun k' =>
    if k' = rowKey r then some ⟨dictApply (basePropsOf g (rowKey r)) (rowDict r), t⟩
    else g.papers k'
  authors := fun x => if x ∈ rowAuthors r then some (rowTitle r) else g.authors x
  keywords := fun x => g.keywords x || decide (x ∈ rowTags r)
  publishers := fun x => g.publishers x || decide (rowPublisher r = some x)
  journals := fun n =>
    match rowJournal r with
    | some ji => if n = ji.1 then some ji.2 else g.journals n
    | none => g.journals n
  subjects := fun x => g.subjects x || decide (rowSubject r = some x)
  authored_by := fun k' x =>
    g.authored_by k' x || (decide (k' = rowKey r) && decide (x ∈ rowAuthors r))
  has_keyword := fun k' x =>
    g.has_keyword k' x || (decide (k' = rowKey r) && decide (x ∈ rowTags r))
  published_by := fun k' x =>
    g.published_by k' x || (decide (k' = rowKey r) && decide (rowPublisher r = some x))
  published_in := fun k' n =>
    g.published_in k' n || (decide (k' = rowKey r) && decide (rowJournalName r = some n))
  belongs_to_subject := fun k' x =>
    g.belongs_to_subject k' x || (decide (k' = rowKey r) && decide (rowSubject r = some x))

/-! ### The batch fold and its component formulas -/

/-- The orchestrator's record loop, seen from the store alone. -/
def importAll (t : Nat) (g : GraphState) (rows : List CsvRow) : GraphState :=
  rows.foldl (fun acc r => runRow acc r t) g

/-- The last `last_seen_in` write the batch performs for an author name. -/
def lastAuthorWrite : List CsvRow → PyStr → Option Cell
  | [], _ => none
  | r :: L, a =>
    match lastAuthorWrite L a with
    | some ti => some ti
    | none => if rowOk r && decide (a ∈ rowAuthors r) then some (rowTitle r) else none

/-- The last issn write the batch performs for a journal name. -/
def lastJournalWrite : List CsvRow → Cell → Option Cell
  | [], _ => none
  | r :: L, n =>
    match lastJournalWrite L n with
    | some i => some i
    | none =>
      match (if rowOk r = true then rowJournal r else none) with
      | some ji => if n = ji.1 then some ji.2 else none
      | none => none

/-- The property dicts the batch merges into the paper keyed `k`, in order. -/
def dictsFor (L : List CsvRow) (k : Cell) : List (List (String × PVal)) :=
  L.filterMap (fun r => if rowOk r && decide (k = rowKey r) then some (rowDict r) else none)

/-- Sequential `SET p +=` of a list of dicts. -/
def dictApplySeq (ds : List (List (String × PVal))) (f : String → Option PVal) :
    String → Option PVal :=
  ds.foldl dictApply f

/-- The last dict in the sequence holding a key wins. -/
def lastFound (D : List (List (String × PVal))) (κ : String) : Option PVal :=
  match D with
  | [] => none
  | d :: D' =>
    match lastFound D' κ with
    | some v => some v
    | none => lookupKV d κ

/-! ### Sample records used by the witnesses -/

/-- The record of the tag-union example (`manual_tags="AI;ML"`, `auto_tags="ML;Data"`). -/
def r5 : CsvRow :=
  { zotero_key := some (Cell.str ("K1".toList)),
    manual_tags := some (Cell.str ("AI;ML".toList)),
    auto_tags := some (Cell.str ("ML;Data".toList)) }

/-- A record with a 600-character abstract. -/
def r6a : CsvRow := { abstract := some (Cell.str (List.replicate 600 'a')) }

/-- A record with a short abstract. -/
def r6b : CsvRow := { abstract := some (Cell.str ("hi".toList)) }

/-- A record whose `File Attachments` cell is a pandas missing value. -/
def r7 : CsvRow := { file_attachments := some Cell.nan }

/-- A record whose `File Attachments` cell is the empty string. -/
def r7empty : CsvRow := { file_attachments := some (Cell.str []) }

/-- A record with no `File Attachments` column at all. -/
def r7missing : CsvRow := {}

/-- A record whose abstract cell is a pandas missing value. -/
def r8 : CsvRow := { abstract := some Cell.nan }

/-- A record that fails during upsert (NaN abstract) with a key for the log. -/
def r2bad : CsvRow :=
  { zotero_key := some (Cell.str ("BAD".toList)), abstract := some Cell.nan }

/-- A plain good record. -/
def r2a : CsvRow :=
  { zotero_key := some (Cell.str ("P1".toList)),
    authors := some (Cell.str ("Alice".toList)) }

/-- Another plain good record. -/
def r2b : CsvRow := { zotero_key := some (Cell.str ("P2".toList)) }

/-- A record used in the clear-flag witness run. -/
def rw9 : CsvRow :=
  { zotero_key := some (Cell.str ("W".toList)),
    manual_tags := some (Cell.str ("T1".toList)) }

/-- Is this cell value the pandas missing marker? -/
def isNanCell : Option Cell → Bool
  | some Cell.nan => true
  | _ => false

/-- The worked extra-info example string. -/
def exExtra : PyStr := "download: 120\nCNKICite: 5\nmajor: Physics".toList

example : split_authors (Cell.str "A; B ; ".toList) = ["A".toList, "B".toList] := by decide

example : split_authors (Cell.str "A;A".toList) = ["A".toList, "A".toList] := by decide

example :
    parse_extra_info (Cell.str "download: 120\nCNKICite: 5\nmajor: Physics".toList) =
      [("download_count", PVal.int 120), ("cnki_citation", PVal.int 5),
        ("major_field", PVal.cell (Cell.str "Physics".toList))] := by decide

/-! ### Helper lemmas about the Python string operations -/

theorem dropWhile_dropWhile_self (p : Char → Bool) (l : PyStr) :
    List.dropWhile p (List.dropWhile p l) = List.dropWhile p l := by
  induction l with
  | nil => rfl
  | cons c cs ih =>
    by_cases h : p c = true
    · simp [List.dropWhile_cons, h, ih]
    · simp [List.dropWhile_cons, h]

theorem dropWhile_head_false (p : Char → Bool) (l : PyStr) (c : Char)
    (h : (List.dropWhile p l).head? = some c) : p c = false := by
  induction l with
  | nil => simp [List.dropWhile] at h
  | cons a as ih =>
    by_cases ha : p a = true
    · exact ih (by simpa [List.dropWhile_cons, ha] using h)
    · have hps : p a = false := Bool.eq_false_iff.mpr ha
      rw [List.dropWhile_cons, hps] at h
      simp only [Bool.false_eq_true, if_false, List.head?_cons, Option.some.injEq] at h
      subst h
      exact hps

theorem dropWhile_reverse_dropped (p : Char → Bool) (u : PyStr)
    (hu : List.dropWhile p u = u) :
    List.dropWhile p (List.dropWhile p u.reverse).reverse
      = (List.dropWhile p u.reverse).reverse := by
  set w := List.dropWhile p u.reverse with hw
  cases hrev : w.reverse with
  | nil => simp
  | cons c tl =>
    have hwne : w ≠ [] := by
      intro h0
      rw [h0] at hrev
      exact List.noConfusion hrev
    have hlast : w.getLast? = u.reverse.getLast? := by
      obtain ⟨s, hs⟩ : w <:+ u.reverse := by
        rw [hw]
        exact List.dropWhile_suffix p
      rw [← hs]
      exact (List.getLast?_append_of_ne_nil _ hwne).symm
    have hc : p c = false := by
      have h2 : w.reverse.head? = some c := by rw [hrev]; rfl
      have h1 : u.head? = some c := by
        calc u.head? = u.reverse.getLast? := (List.getLast?_reverse u).symm
          _ = w.getLast? := hlast.symm
          _ = w.reverse.head? := (List.head?_reverse w).symm
          _ = some c := h2
      exact dropWhile_head_false p u c (by rw [hu]; exact h1)
    simp [List.dropWhile_cons, hc]

theorem pyStrip_idem (x : PyStr) : pyStrip (pyStrip x) = pyStrip x := by
  unfold pyStrip
  set u := List.dropWhile isPySpace x with hu0
  have hu : List.dropWhile isPySpace u = u := dropWhile_dropWhile_self _ _
  set w := List.dropWhile isPySpace u.reverse with hw0
  have h1 : List.dropWhile isPySpace w.reverse = w.reverse :=
    dropWhile_reverse_dropped isPySpace u hu
  rw [h1, List.reverse_reverse]
  have h2 : List.dropWhile isPySpace w = w := by
    rw [hw0]
    exact dropWhile_dropWhile_self _ _
  rw [h2]

theorem mem_split_authors (c : Cell) (x : PyStr) (hx : x ∈ split_authors c) :
    x.isEmpty = false ∧ pyStrip x = x := by
  rcases c with s | _
  · simp only [split_authors] at hx
    by_cases hs : s.isEmpty = true
    · rw [if_pos hs] at hx
      exact absurd hx (List.not_mem_nil x)
    · rw [if_neg hs, List.mem_filterMap] at hx
      obtain ⟨a, _, ha⟩ := hx
      by_cases he : (pyStrip a).isEmpty = true
      · rw [if_pos he] at ha
        exact absurd ha (by simp)
      · rw [if_neg he] at ha
        injection ha with ha
        subst ha
        exact ⟨Bool.eq_false_iff.mpr he, pyStrip_idem a⟩
  · simp [split_authors] at hx

theorem split_tags_eq_split_authors (c : Cell) : split_tags c = split_authors c := rfl

theorem mem_uniqueFirst (l : List PyStr) (x : PyStr) : x ∈ uniqueFirst l ↔ x ∈ l := by
  induction l using uniqueFirst.induct with
  | case1 => simp [uniqueFirst]
  | case2 a l ih =>
    rw [uniqueFirst]
    by_cases hxa : x = a
    · simp [hxa]
    · simp only [List.mem_cons, hxa, false_or, ih, List.mem_filter]
      constructor
      · exact fun h => h.1
      · exact fun h => ⟨h, by simp [hxa]⟩

theorem mem_rowTags (r : CsvRow) (x : PyStr) (hx : x ∈ rowTags r) :
    x.isEmpty = false := by
  unfold rowTags at hx
  rw [mem_uniqueFirst, List.mem_append] at hx
  rcases hx with h | h
  · exact (mem_split_authors _ x (by rw [← split_tags_eq_split_authors]; exact h)).1
  · exact (mem_split_authors _ x (by rw [← split_tags_eq_split_authors]; exact h)).1

theorem mem_rowAuthors (r : CsvRow) (x : PyStr) (hx : x ∈ rowAuthors r) :
    x.isEmpty = false :=
  (mem_split_authors _ x hx).1

/-! ### Helper lemmas about dict lookups -/

theorem lookupKV_setKV_ne (b : List (String × PVal)) (k : String) (v : PVal)
    (κ : String) (hk : k ≠ κ) : lookupKV (setKV b (k, v)) κ = lookupKV b κ := by
  induction b with
  | nil => simp [setKV, lookupKV, hk]
  | cons kv rest ih =>
    obtain ⟨k', v'⟩ := kv
    by_cases h : k' = k
    · simp [setKV, h, lookupKV, hk]
    · simp only [setKV, h, if_false]
      by_cases h2 : k' = κ
      · simp [lookupKV, h2]
      · simp [lookupKV, h2, ih]

theorem lookupKV_updList (b u : List (String × PVal)) (κ : String)
    (hu : ∀ kv ∈ u, kv.1 ≠ κ) : lookupKV (updList b u) κ = lookupKV b κ := by
  induction u generalizing b with
  | nil => rfl
  | cons kv rest ih =>
    obtain ⟨k, v⟩ := kv
    have : updList b ((k, v) :: rest) = updList (setKV b (k, v)) rest := rfl
    rw [this, ih _ (fun kv h => hu kv (List.mem_cons_of_mem _ h)),
      lookupKV_setKV_ne _ _ _ _ (hu (k, v) (List.mem_cons_self _ _))]

theorem lookupKV_none (l : List (String × PVal)) (κ : String)
    (h : ∀ kv ∈ l, kv.1 ≠ κ) : lookupKV l κ = none := by
  induction l with
  | nil => rfl
  | cons kv rest ih =>
    obtain ⟨k, v⟩ := kv
    simp only [lookupKV]
    rw [if_neg (h (k, v) (List.mem_cons_self _ _)), ih (fun kv h2 => h kv (List.mem_cons_of_mem _ h2))]

theorem lookupKV_mem (l : List (String × PVal)) (κ : String) (v : PVal)
    (h : lookupKV l κ = some v) : (κ, v) ∈ l := by
  induction l with
  | nil => simp [lookupKV] at h
  | cons kv rest ih =>
    obtain ⟨k, w⟩ := kv
    by_cases hk : k = κ
    · simp only [lookupKV, hk, if_true, Option.some.injEq] at h
      subst h; subst hk
      exact List.mem_cons_self _ _
    · simp only [lookupKV, hk, if_false] at h
      exact List.mem_cons_of_mem _ (ih h)

theorem mem_if_bool {α : Type} {b : Bool} {l : List α} {x : α}
    (h : x ∈ if b = true then l else []) : x ∈ l := by
  cases b
  · simp at h
  · simpa using h

/-- Every member of a `_parse_extra_info` result comes from one of its three
marker branches. -/
theorem parse_extra_info_shape (c : Cell) (kv : String × PVal)
    (h : kv ∈ parse_extra_info c) :
    (∃ ds, searchNum ("download:".toList) (match c with | Cell.str s => s | Cell.nan => []) = some ds ∧
      kv = ("download_count", PVal.int (natOfDigits ds))) ∨
    (∃ ds, searchNum ("CNKICite:".toList) (match c with | Cell.str s => s | Cell.nan => []) = some ds ∧
      kv = ("cnki_citation", PVal.int (natOfDigits ds))) ∨
    (∃ g, searchMajor (match c with | Cell.str s => s | Cell.nan => []) = some g ∧
      kv = ("major_field", PVal.cell (Cell.str (pyStrip g)))) := by
  rcases c with s | _
  · simp only [parse_extra_info] at h
    rcases List.mem_append.mp h with h' | h3
    · rcases List.mem_append.mp h' with h1 | h2
      · left
        have h1' := mem_if_bool h1
        cases hsn : searchNum ("download:".toList) s with
        | none =>
          rw [hsn] at h1'
          exact absurd (show kv ∈ ([] : List (String × PVal)) from h1') (List.not_mem_nil kv)
        | some ds =>
          rw [hsn] at h1'
          have h1'' : kv ∈ [("download_count", PVal.int (natOfDigits ds))] := h1'
          exact ⟨ds, rfl, List.mem_singleton.mp h1''⟩
      · right; left
        have h2' := mem_if_bool h2
        cases hsn : searchNum ("CNKICite:".toList) s with
        | none =>
          rw [hsn] at h2'
          exact absurd (show kv ∈ ([] : List (String × PVal)) from h2') (List.not_mem_nil kv)
        | some ds =>
          rw [hsn] at h2'
          have h2'' : kv ∈ [("cnki_citation", PVal.int (natOfDigits ds))] := h2'
          exact ⟨ds, rfl, List.mem_singleton.mp h2''⟩
    · right; right
      have h3' := mem_if_bool h3
      cases hsn : searchMajor s with
      | none =>
        rw [hsn] at h3'
        exact absurd (show kv ∈ ([] : List (String × PVal)) from h3') (List.not_mem_nil kv)
      | some g =>
        rw [hsn] at h3'
        have h3'' : kv ∈ [("major_field", PVal.cell (Cell.str (pyStrip g)))] := h3'
        exact ⟨g, rfl, List.mem_singleton.mp h3''⟩
  · simp [parse_extra_info] at h

/-- Every key `_parse_extra_info` can produce. -/
theorem parse_extra_info_keys (c : Cell) (kv : String × PVal)
    (h : kv ∈ parse_extra_info c) :
    kv.1 = "download_count" ∨ kv.1 = "cnki_citation" ∨ kv.1 = "major_field" := by
  rcases parse_extra_info_shape c kv h with ⟨ds, _, hkv⟩ | ⟨ds, _, hkv⟩ | ⟨g, _, hkv⟩
  · left; rw [hkv]
  · right; left; rw [hkv]
  · right; right; rw [hkv]

/-- The only value shape stored under `cnki_citation`. -/
theorem parse_extra_info_cnki_int (c : Cell) (v : PVal)
    (h : lookupKV (parse_extra_info c) "cnki_citation" = some v) :
    ∃ n, v = PVal.int n := by
  have hmem := lookupKV_mem _ _ _ h
  rcases parse_extra_info_shape c _ hmem with ⟨ds, _, hkv⟩ | ⟨ds, _, hkv⟩ | ⟨g, _, hkv⟩
  · exfalso
    have hfst := congrArg Prod.fst hkv
    simp at hfst
  · refine ⟨natOfDigits ds, ?_⟩
    have hsnd := congrArg Prod.snd hkv
    simpa using hsnd
  · exfalso
    have hfst := congrArg Prod.fst hkv
    simp at hfst

theorem authorStep_eq (g : GraphState) (k ti : Cell) (a : PyStr)
    (hp : (g.papers k).isSome = true) (ha : a.isEmpty = false) :
    authorStep k ti g a = { g with
      authors := fun x => if x = a then some ti else g.authors x,
      authored_by := fun k' x =>
        g.authored_by k' x || (decide (k' = k) && decide (x = a)) } := by
  simp only [authorStep, ha, Bool.false_eq_true, if_false, mergeAuthoredBy, mergeAuthorNode,
    hp, Option.isSome_some, if_pos rfl, Bool.and_self, if_true]

theorem authors_fold_spec (k ti : Cell) (A : List PyStr)
    (hA : ∀ a ∈ A, a.isEmpty = false) :
    ∀ g : GraphState, (g.papers k).isSome = true →
    A.foldl (authorStep k ti) g = { g with
      authors := fun x => if x ∈ A then some ti else g.authors x,
      authored_by := fun k' x =>
        g.authored_by k' x || (decide (k' = k) && decide (x ∈ A)) } := by
  induction A with
  | nil =>
    intro g hp
    refine GraphState.ext rfl ?_ rfl rfl rfl rfl ?_ rfl rfl rfl rfl
    · funext x
      simp
    · funext k' x
      simp
  | cons a A ih =>
    intro g hp
    rw [List.foldl_cons, authorStep_eq g k ti a hp (hA a (List.mem_cons_self _ _))]
    have hstep := ih (fun x hx => hA x (List.mem_cons_of_mem _ hx))
      { g with authors := fun x => if x = a then some ti else g.authors x,
               authored_by := fun k' x =>
                 g.authored_by k' x || (decide (k' = k) && decide (x = a)) } hp
    rw [hstep]
    refine GraphState.ext rfl ?_ rfl rfl rfl rfl ?_ rfl rfl rfl rfl
    · funext x
      by_cases h1 : x ∈ A <;> by_cases h2 : x = a <;>
        simp [List.mem_cons, h1, h2]
    · funext k' x
      by_cases h1 : x ∈ A <;> by_cases h2 : x = a <;> by_cases h3 : k' = k <;>
        simp [List.mem_cons, h1, h2, h3]

theorem mergePublisherAndEdge_eq (g : GraphState) (p : PyStr) (k : Cell) :
    mergePublisherAndEdge g p k = { g with
      publishers := fun x => g.publishers x || decide (x = p),
      published_by := fun k' x =>
        g.published_by k' x || ((g.papers k).isSome && (decide (k' = k) && decide (x = p))) } := by
  cases hb : (g.papers k).isSome with
  | false =>
    simp only [mergePublisherAndEdge, hb, Bool.false_eq_true, if_false]
    refine GraphState.ext rfl rfl rfl rfl rfl rfl rfl rfl ?_ rfl rfl
    funext k' x
    simp
  | true =>
    simp only [mergePublisherAndEdge, hb, if_true]
    refine GraphState.ext rfl rfl rfl rfl rfl rfl rfl rfl ?_ rfl rfl
    funext k' x
    simp

theorem mergeJournalAndEdge_eq (g : GraphState) (n i k : Cell) :
    mergeJournalAndEdge g n i k = { g with
      journals := fun x => if x = n then some i else g.journals x,
      published_in := fun k' x =>
        g.published_in k' x || ((g.papers k).isSome && (decide (k' = k) && decide (x = n))) } := by
  cases hb : (g.papers k).isSome with
  | false =>
    simp only [mergeJournalAndEdge, hb, Bool.false_eq_true, if_false]
    refine GraphState.ext rfl rfl rfl rfl rfl rfl rfl rfl rfl ?_ rfl
    funext k' x
    simp
  | true =>
    simp only [mergeJournalAndEdge, hb, if_true]
    refine GraphState.ext rfl rfl rfl rfl rfl rfl rfl rfl rfl ?_ rfl
    funext k' x
    simp

theorem mergeSubjectAndEdge_eq (g : GraphState) (s : PyStr) (k : Cell) :
    mergeSubjectAndEdge g s k = { g with
      subjects := fun x => g.subjects x || decide (x = s),
      belongs_to_subject := fun k' x =>
        g.belongs_to_subject k' x ||
          ((g.papers k).isSome && (decide (k' = k) && decide (x = s))) } := by
  cases hb : (g.papers k).isSome with
  | false =>
    simp only [mergeSubjectAndEdge, hb, Bool.false_eq_true, if_false]
    refine GraphState.ext rfl rfl rfl rfl rfl rfl rfl rfl rfl rfl ?_
    funext k' x
    simp
  | true =>
    simp only [mergeSubjectAndEdge, hb, if_true]
    refine GraphState.ext rfl rfl rfl rfl rfl rfl rfl rfl rfl rfl ?_
    funext k' x
    simp

theorem tagStep_eq (g : GraphState) (k : Cell) (κ : PyStr)
    (hp : (g.papers k).isSome = true) (hκ : κ.isEmpty = false) :
    tagStep k g κ = { g with
      keywords := fun x => g.keywords x || decide (x = κ),
      has_keyword := fun k' x =>
        g.has_keyword k' x || (decide (k' = k) && decide (x = κ)) } := by
  simp only [tagStep, hκ, Bool.false_eq_true, if_false, mergeHasKeyword, mergeKeywordNode,
    hp, if_pos rfl, decide_True, Bool.or_true, Bool.and_self, if_true]

theorem tags_fold_spec (k : Cell) (T : List PyStr)
    (hT : ∀ x ∈ T, x.isEmpty = false) :
    ∀ g : GraphState, (g.papers k).isSome = true →
    T.foldl (tagStep k) g = { g with
      keywords := fun x => g.keywords x || decide (x ∈ T),
      has_keyword := fun k' x =>
        g.has_keyword k' x || (decide (k' = k) && decide (x ∈ T)) } := by
  induction T with
  | nil =>
    intro g hp
    refine GraphState.ext rfl rfl ?_ rfl rfl rfl rfl ?_ rfl rfl rfl
    · funext x
      simp
    · funext k' x
      simp
  | cons a T ih =>
    intro g hp
    rw [List.foldl_cons, tagStep_eq g k a hp (hT a (List.mem_cons_self _ _))]
    have hstep := ih (fun x hx => hT x (List.mem_cons_of_mem _ hx))
      { g with keywords := fun x => g.keywords x || decide (x = a),
               has_keyword := fun k' x =>
                 g.has_keyword k' x || (decide (k' = k) && decide (x = a)) } hp
    rw [hstep]
    refine GraphState.ext rfl rfl ?_ rfl rfl rfl rfl ?_ rfl rfl rfl
    · funext x
      by_cases h1 : x ∈ T <;> by_cases h2 : x = a <;>
        simp [List.mem_cons, h1, h2, Bool.or_assoc]
    · funext k' x
      by_cases h1 : x ∈ T <;> by_cases h2 : x = a <;> by_cases h3 : k' = k <;>
        simp [List.mem_cons, h1, h2, h3, Bool.or_assoc]

theorem add_extra_nodes_spec (r : CsvRow) (k : Cell) (g : GraphState)
    (hp : (g.papers k).isSome = true) :
    add_extra_nodes g r k = { g with
      publishers := fun x => g.publishers x || decide (rowPublisher r = some x),
      journals := fun n =>
        match rowJournal r with
        | some ji => if n = ji.1 then some ji.2 else g.journals n
        | none => g.journals n,
      subjects := fun x => g.subjects x || decide (rowSubject r = some x),
      published_by := fun k' x =>
        g.published_by k' x || (decide (k' = k) && decide (rowPublisher r = some x)),
      published_in := fun k' n =>
        g.published_in k' n || (decide (k' = k) && decide (rowJournalName r = some n)),
      belongs_to_subject := fun k' x =>
        g.belongs_to_subject k' x || (decide (k' = k) && decide (rowSubject r = some x)) } := by
  simp only [add_extra_nodes, rowJournalName]
  by_cases hPn : rowPublisher r = none
  · by_cases hJn : rowJournal r = none
    · by_cases hSn : rowSubject r = none
      · simp only [hPn, hJn, hSn]
        refine GraphState.ext rfl rfl rfl ?_ rfl ?_ rfl rfl ?_ ?_ ?_
        · funext x
          simp
        · funext x
          simp
        · funext k' x
          simp
        · funext k' x
          simp
        · funext k' x
          simp
      · obtain ⟨s, hS⟩ := Option.ne_none_iff_exists'.mp hSn
        simp only [hPn, hJn, hS]
        rw [mergeSubjectAndEdge_eq]
        refine GraphState.ext rfl rfl rfl ?_ rfl ?_ rfl rfl ?_ ?_ ?_
        · funext x
          simp
        · funext x
          by_cases hx : x = s
          · subst hx; simp
          · simp [hx, Ne.symm hx]
        · funext k' x
          simp
        · funext k' x
          simp
        · funext k' x
          by_cases hx : x = s
          · subst hx; simp [hp]
          · simp [hx, Ne.symm hx]
    · obtain ⟨ji, hJ⟩ := Option.ne_none_iff_exists'.mp hJn
      obtain ⟨n, i⟩ := ji
      by_cases hSn : rowSubject r = none
      · simp only [hPn, hJ, hSn]
        rw [mergeJournalAndEdge_eq]
        refine GraphState.ext rfl rfl rfl ?_ ?_ ?_ rfl rfl ?_ ?_ ?_
        · funext x
          simp
        · funext x
          simp
        · funext x
          simp
        · funext k' x
          simp
        · funext k' x
          by_cases hx : x = n
          · subst hx; simp [hp]
          · simp [hx, Ne.symm hx]
        · funext k' x
          simp
      · obtain ⟨s, hS⟩ := Option.ne_none_iff_exists'.mp hSn
        simp only [hPn, hJ, hS]
        rw [mergeJournalAndEdge_eq, mergeSubjectAndEdge_eq]
        refine GraphState.ext rfl rfl rfl ?_ ?_ ?_ rfl rfl ?_ ?_ ?_
        · funext x
          simp
        · funext x
          simp
        · funext x
          by_cases hx : x = s
          · subst hx; simp
          · simp [hx, Ne.symm hx]
        · funext k' x
          simp
        · funext k' x
          by_cases hx : x = n
          · subst hx; simp [hp]
          · simp [hx, Ne.symm hx]
        · funext k' x
          by_cases hx : x = s
          · subst hx; simp [hp]
          · simp [hx, Ne.symm hx]
  · obtain ⟨p, hP⟩ := Option.ne_none_iff_exists'.mp hPn
    by_cases hJn : rowJournal r = none
    · by_cases hSn : rowSubject r = none
      · simp only [hP, hJn, hSn]
        rw [mergePublisherAndEdge_eq]
        refine GraphState.ext rfl rfl rfl ?_ rfl ?_ rfl rfl ?_ ?_ ?_
        · funext x
          by_cases hx : x = p
          · subst hx; simp
          · simp [hx, Ne.symm hx]
        · funext x
          simp
        · funext k' x
          by_cases hx : x = p
          · subst hx; simp [hp]
          · simp [hx, Ne.symm hx]
        · funext k' x
          simp
        · funext k' x
          simp
      · obtain ⟨s, hS⟩ := Option.ne_none_iff_exists'.mp hSn
        simp only [hP, hJn, hS]
        rw [mergePublisherAndEdge_eq, mergeSubjectAndEdge_eq]
        refine GraphState.ext rfl rfl rfl ?_ rfl ?_ rfl rfl ?_ ?_ ?_
        · funext x
          by_cases hx : x = p
          · subst hx; simp
          · simp [hx, Ne.symm hx]
        · funext x
          by_cases hx : x = s
          · subst hx; simp
          · simp [hx, Ne.symm hx]
        · funext k' x
          by_cases hx : x = p
          · subst hx; simp [hp]
          · simp [hx, Ne.symm hx]
        · funext k' x
          simp
        · funext k' x
          by_cases hx : x = s
          · subst hx; simp [hp]
          · simp [hx, Ne.symm hx]
    · obtain ⟨ji, hJ⟩ := Option.ne_none_iff_exists'.mp hJn
      obtain ⟨n, i⟩ := ji
      by_cases hSn : rowSubject r = none
      · simp only [hP, hJ, hSn]
        rw [mergePublisherAndEdge_eq, mergeJournalAndEdge_eq]
        refine GraphState.ext rfl rfl rfl ?_ ?_ ?_ rfl rfl ?_ ?_ ?_
        · funext x
          by_cases hx : x = p
          · subst hx; simp
          · simp [hx, Ne.symm hx]
        · funext x
          simp
        · funext x
          simp
        · funext k' x
          by_cases hx : x = p
          · subst hx; simp [hp]
          · simp [hx, Ne.symm hx]
        · funext k' x
          by_cases hx : x = n
          · subst hx; simp [hp]
          · simp [hx, Ne.symm hx]
        · funext k' x
          simp
      · obtain ⟨s, hS⟩ := Option.ne_none_iff_exists'.mp hSn
        simp only [hP, hJ, hS]
        rw [mergePublisherAndEdge_eq, mergeJournalAndEdge_eq, mergeSubjectAndEdge_eq]
        refine GraphState.ext rfl rfl rfl ?_ ?_ ?_ rfl rfl ?_ ?_ ?_
        · funext x
          by_cases hx : x = p
          · subst hx; simp
          · simp [hx, Ne.symm hx]
        · funext x
          simp
        · funext x
          by_cases hx : x = s
          · subst hx; simp
          · simp [hx, Ne.symm hx]
        · funext k' x
          by_cases hx : x = p
          · subst hx; simp [hp]
          · simp [hx, Ne.symm hx]
        · funext k' x
          by_cases hx : x = n
          · subst hx; simp [hp]
          · simp [hx, Ne.symm hx]
        · funext k' x
          by_cases hx : x = s
          · subst hx; simp [hp]
          · simp [hx, Ne.symm hx]

/-- One record, seen from the store: a caught failure is a no-op, a success
is exactly the closed-form `applyRow`. -/
theorem runRow_eq (g : GraphState) (r : CsvRow) (t : Nat) :
    runRow g r t = if rowOk r = true then applyRow g r t else g := by
  cases hpp : paper_properties r with
  | error e =>
    have hok : rowOk r = false := by simp [rowOk, hpp]
    rw [hok]
    simp only [runRow, import_paper, hpp, Bool.false_eq_true, if_false]
  | ok d =>
    have hok : rowOk r = true := by simp [rowOk, hpp]
    have hd : rowDict r = d := by simp [rowDict, hpp]
    rw [hok, if_pos rfl]
    simp only [runRow, import_paper, hpp]
    have hp1 : ((mergePaperNode g (rowKey r) d t).papers (rowKey r)).isSome = true := by
      simp [mergePaperNode]
    rw [authors_fold_spec (rowKey r) (rowTitle r) (rowAuthors r) (mem_rowAuthors r) _ hp1]
    rw [tags_fold_spec (rowKey r) (rowTags r) (mem_rowTags r)
      { mergePaperNode g (rowKey r) d t with
        authors := fun x =>
          if x ∈ rowAuthors r then some (rowTitle r)
          else (mergePaperNode g (rowKey r) d t).authors x,
        authored_by := fun k' x =>
          (mergePaperNode g (rowKey r) d t).authored_by k' x ||
            (decide (k' = rowKey r) && decide (x ∈ rowAuthors r)) } hp1]
    refine Eq.trans (add_extra_nodes_spec r (rowKey r) _ ?_) ?_
    · exact hp1
    · simp only [applyRow]
      rw [hd]
      exact GraphState.ext rfl rfl rfl rfl rfl rfl rfl rfl rfl rfl rfl

theorem runRow_keywords (g : GraphState) (r : CsvRow) (t : Nat) (x : PyStr) :
    (runRow g r t).keywords x = (g.keywords x || (rowOk r && decide (x ∈ rowTags r))) := by
  rw [runRow_eq]
  cases h : rowOk r
  · simp [h]
  · simp [h, applyRow]

theorem runRow_publishers (g : GraphState) (r : CsvRow) (t : Nat) (x : PyStr) :
    (runRow g r t).publishers x
      = (g.publishers x || (rowOk r && decide (rowPublisher r = some x))) := by
  rw [runRow_eq]
  cases h : rowOk r
  · simp [h]
  · simp [h, applyRow]

theorem runRow_subjects (g : GraphState) (r : CsvRow) (t : Nat) (x : PyStr) :
    (runRow g r t).subjects x
      = (g.subjects x || (rowOk r && decide (rowSubject r = some x))) := by
  rw [runRow_eq]
  cases h : rowOk r
  · simp [h]
  · simp [h, applyRow]

theorem runRow_authored_by (g : GraphState) (r : CsvRow) (t : Nat) (k : Cell) (a : PyStr) :
    (runRow g r t).authored_by k a
      = (g.authored_by k a ||
          (rowOk r && (decide (k = rowKey r) && decide (a ∈ rowAuthors r)))) := by
  rw [runRow_eq]
  cases h : rowOk r
  · simp [h]
  · simp [h, applyRow]

theorem runRow_has_keyword (g : GraphState) (r : CsvRow) (t : Nat) (k : Cell) (x : PyStr) :
    (runRow g r t).has_keyword k x
      = (g.has_keyword k x ||
          (rowOk r && (decide (k = rowKey r) && decide (x ∈ rowTags r)))) := by
  rw [runRow_eq]
  cases h : rowOk r
  · simp [h]
  · simp [h, applyRow]

theorem runRow_published_by (g : GraphState) (r : CsvRow) (t : Nat) (k : Cell) (x : PyStr) :
    (runRow g r t).published_by k x
      = (g.published_by k x ||
          (rowOk r && (decide (k = rowKey r) && decide (rowPublisher r = some x)))) := by
  rw [runRow_eq]
  cases h : rowOk r
  · simp [h]
  · simp [h, applyRow]

theorem runRow_published_in (g : GraphState) (r : CsvRow) (t : Nat) (k n : Cell) :
    (runRow g r t).published_in k n
      = (g.published_in k n ||
          (rowOk r && (decide (k = rowKey r) && decide (rowJournalName r = some n)))) := by
  rw [runRow_eq]
  cases h : rowOk r
  · simp [h]
  · simp [h, applyRow]

theorem runRow_belongs (g : GraphState) (r : CsvRow) (t : Nat) (k : Cell) (x : PyStr) :
    (runRow g r t).belongs_to_subject k x
      = (g.belongs_to_subject k x ||
          (rowOk r && (decide (k = rowKey r) && decide (rowSubject r = some x)))) := by
  rw [runRow_eq]
  cases h : rowOk r
  · simp [h]
  · simp [h, applyRow]

theorem runRow_authors (g : GraphState) (r : CsvRow) (t : Nat) (a : PyStr) :
    (runRow g r t).authors a
      = (if rowOk r && decide (a ∈ rowAuthors r) then some (rowTitle r) else g.authors a) := by
  rw [runRow_eq]
  cases h : rowOk r
  · simp [h]
  · simp [h, applyRow]

theorem runRow_journals (g : GraphState) (r : CsvRow) (t : Nat) (n : Cell) :
    (runRow g r t).journals n
      = (match (if rowOk r = true then rowJournal r else none) with
         | some ji => if n = ji.1 then some ji.2 else g.journals n
         | none => g.journals n) := by
  rw [runRow_eq]
  cases h : rowOk r
  · simp [h]
  · simp [h, applyRow]

theorem runRow_papers (g : GraphState) (r : CsvRow) (t : Nat) (k : Cell) :
    (runRow g r t).papers k
      = (if rowOk r && decide (k = rowKey r)
         then some ⟨dictApply (basePropsOf g (rowKey r)) (rowDict r), t⟩
         else g.papers k) := by
  rw [runRow_eq]
  cases h : rowOk r
  · simp [h]
  · simp [h, applyRow]

theorem basePropsOf_runRow (g : GraphState) (r : CsvRow) (t : Nat) (k : Cell) :
    basePropsOf (runRow g r t) k
      = (if rowOk r && decide (k = rowKey r)
         then dictApply (basePropsOf g k) (rowDict r)
         else basePropsOf g k) := by
  by_cases hc : (rowOk r && decide (k = rowKey r)) = true
  · have hk : k = rowKey r := by
      have h2 := hc
      rw [Bool.and_eq_true] at h2
      exact of_decide_eq_true h2.2
    rw [if_pos hc]
    simp only [basePropsOf, runRow_papers, hc, if_true]
    rw [hk]
  · have hc' : (rowOk r && decide (k = rowKey r)) = false := Bool.eq_false_iff.mpr hc
    simp only [basePropsOf, runRow_papers, hc', Bool.false_eq_true, if_false]

theorem importAll_bool {α : Type} (π : GraphState → α → Bool) (c : CsvRow → α → Bool)
    (hstep : ∀ (g : GraphState) (r : CsvRow) (t : Nat) (a : α),
      π (runRow g r t) a = (π g a || (rowOk r && c r a))) :
    ∀ (L : List CsvRow) (t : Nat) (g : GraphState) (a : α),
      π (importAll t g L) a = (π g a || L.any (fun r => rowOk r && c r a)) := by
  intro L
  induction L with
  | nil =>
    intro t g a
    simp [importAll]
  | cons r L ih =>
    intro t g a
    have h1 : importAll t g (r :: L) = importAll t (runRow g r t) L := rfl
    rw [h1, ih, hstep, List.any_cons, Bool.or_assoc]

theorem importAll_keywords (L : List CsvRow) (t : Nat) (g : GraphState) (x : PyStr) :
    (importAll t g L).keywords x
      = (g.keywords x || L.any (fun r => rowOk r && decide (x ∈ rowTags r))) :=
  importAll_bool (fun g x => g.keywords x) (fun r x => decide (x ∈ rowTags r))
    (fun g r t a => runRow_keywords g r t a) L t g x

theorem importAll_publishers (L : List CsvRow) (t : Nat) (g : GraphState) (x : PyStr) :
    (importAll t g L).publishers x
      = (g.publishers x || L.any (fun r => rowOk r && decide (rowPublisher r = some x))) :=
  importAll_bool (fun g x => g.publishers x) (fun r x => decide (rowPublisher r = some x))
    (fun g r t a => runRow_publishers g r t a) L t g x

theorem importAll_subjects (L : List CsvRow) (t : Nat) (g : GraphState) (x : PyStr) :
    (importAll t g L).subjects x
      = (g.subjects x || L.any (fun r => rowOk r && decide (rowSubject r = some x))) :=
  importAll_bool (fun g x => g.subjects x) (fun r x => decide (rowSubject r = some x))
    (fun g r t a => runRow_subjects g r t a) L t g x

theorem importAll_authored_by (L : List CsvRow) (t : Nat) (g : GraphState) (k : Cell) (a : PyStr) :
    (importAll t g L).authored_by k a
      = (g.authored_by k a ||
          L.any (fun r => rowOk r && (decide (k = rowKey r) && decide (a ∈ rowAuthors r)))) :=
  importAll_bool (fun g p => g.authored_by p.1 p.2)
    (fun r p => decide (p.1 = rowKey r) && decide (p.2 ∈ rowAuthors r))
    (fun g r t p => runRow_authored_by g r t p.1 p.2) L t g (k, a)

theorem importAll_has_keyword (L : List CsvRow) (t : Nat) (g : GraphState) (k : Cell) (x : PyStr) :
    (importAll t g L).has_keyword k x
      = (g.has_keyword k x ||
          L.any (fun r => rowOk r && (decide (k = rowKey r) && decide (x ∈ rowTags r)))) :=
  importAll_bool (fun g p => g.has_keyword p.1 p.2)
    (fun r p => decide (p.1 = rowKey r) && decide (p.2 ∈ rowTags r))
    (fun g r t p => runRow_has_keyword g r t p.1 p.2) L t g (k, x)

theorem importAll_published_by (L : List CsvRow) (t : Nat) (g : GraphState) (k : Cell) (x : PyStr) :
    (importAll t g L).published_by k x
      = (g.published_by k x ||
          L.any (fun r => rowOk r && (decide (k = rowKey r) && decide (rowPublisher r = some x)))) :=
  importAll_bool (fun g p => g.published_by p.1 p.2)
    (fun r p => decide (p.1 = rowKey r) && decide (rowPublisher r = some p.2))
    (fun g r t p => runRow_published_by g r t p.1 p.2) L t g (k, x)

theorem importAll_published_in (L : List CsvRow) (t : Nat) (g : GraphState) (k n : Cell) :
    (importAll t g L).published_in k n
      = (g.published_in k n ||
          L.any (fun r => rowOk r && (decide (k = rowKey r) && decide (rowJournalName r = some n)))) :=
  importAll_bool (fun g p => g.published_in p.1 p.2)
    (fun r p => decide (p.1 = rowKey r) && decide (rowJournalName r = some p.2))
    (fun g r t p => runRow_published_in g r t p.1 p.2) L t g (k, n)

theorem importAll_belongs (L : List CsvRow) (t : Nat) (g : GraphState) (k : Cell) (x : PyStr) :
    (importAll t g L).belongs_to_subject k x
      = (g.belongs_to_subject k x ||
          L.any (fun r => rowOk r && (decide (k = rowKey r) && decide (rowSubject r = some x)))) :=
  importAll_bool (fun g p => g.belongs_to_subject p.1 p.2)
    (fun r p => decide (p.1 = rowKey r) && decide (rowSubject r = some p.2))
    (fun g r t p => runRow_belongs g r t p.1 p.2) L t g (k, x)

theorem importAll_authors (L : List CsvRow) :
    ∀ (t : Nat) (g : GraphState) (a : PyStr),
    (importAll t g L).authors a
      = (match lastAuthorWrite L a with
         | some ti => some ti
         | none => g.authors a) := by
  induction L with
  | nil =>
    intro t g a
    rfl
  | cons r L ih =>
    intro t g a
    have h1 : importAll t g (r :: L) = importAll t (runRow g r t) L := rfl
    rw [h1, ih]
    show _ = (match lastAuthorWrite (r :: L) a with
              | some ti => some ti
              | none => g.authors a)
    have h2 : lastAuthorWrite (r :: L) a
        = (match lastAuthorWrite L a with
           | some ti => some ti
           | none => if rowOk r && decide (a ∈ rowAuthors r) then some (rowTitle r) else none) := rfl
    rw [h2]
    cases hlw : lastAuthorWrite L a with
    | some ti => rfl
    | none =>
      rw [runRow_authors]
      cases hc : (rowOk r && decide (a ∈ rowAuthors r)) <;> simp [hc]

theorem importAll_journals (L : List CsvRow) :
    ∀ (t : Nat) (g : GraphState) (n : Cell),
    (importAll t g L).journals n
      = (match lastJournalWrite L n with
         | some i => some i
         | none => g.journals n) := by
  induction L with
  | nil =>
    intro t g n
    rfl
  | cons r L ih =>
    intro t g n
    have h1 : importAll t g (r :: L) = importAll t (runRow g r t) L := rfl
    rw [h1, ih]
    have h2 : lastJournalWrite (r :: L) n
        = (match lastJournalWrite L n with
           | some i => some i
           | none =>
             match (if rowOk r = true then rowJournal r else none) with
             | some ji => if n = ji.1 then some ji.2 else none
             | none => none) := rfl
    rw [h2]
    cases hlw : lastJournalWrite L n with
    | some i => rfl
    | none =>
      rw [runRow_journals]
      cases hj : (if rowOk r = true then rowJournal r else none) with
      | none => rfl
      | some ji =>
        by_cases hn : n = ji.1
        · simp [hn]
        · simp [hn]

theorem dictApplySeq_lookup (D : List (List (String × PVal))) :
    ∀ (f : String → Option PVal) (κ : String),
    dictApplySeq D f κ = (match lastFound D κ with | some v => some v | none => f κ) := by
  induction D with
  | nil =>
    intro f κ
    rfl
  | cons d D ih =>
    intro f κ
    have h1 : dictApplySeq (d :: D) f = dictApplySeq D (dictApply f d) := rfl
    rw [h1, ih]
    have h2 : lastFound (d :: D) κ
        = (match lastFound D κ with | some v => some v | none => lookupKV d κ) := rfl
    rw [h2]
    cases lastFound D κ with
    | some v => rfl
    | none =>
      show dictApply f d κ = _
      simp only [dictApply]

theorem dictApplySeq_idem (D : List (List (String × PVal))) (f : String → Option PVal) :
    dictApplySeq D (dictApplySeq D f) = dictApplySeq D f := by
  funext κ
  rw [dictApplySeq_lookup, dictApplySeq_lookup]
  cases hlf : lastFound D κ with
  | some v => rfl
  | none => rfl

theorem importAll_papers (L : List CsvRow) :
    ∀ (t : Nat) (g : GraphState) (k : Cell),
    (importAll t g L).papers k
      = (if dictsFor L k = [] then g.papers k
         else some ⟨dictApplySeq (dictsFor L k) (basePropsOf g k), t⟩) := by
  induction L with
  | nil =>
    intro t g k
    simp [importAll, dictsFor]
  | cons r L ih =>
    intro t g k
    have h1 : importAll t g (r :: L) = importAll t (runRow g r t) L := rfl
    rw [h1, ih]
    by_cases hc : (rowOk r && decide (k = rowKey r)) = true
    · have hk : k = rowKey r := by
        have h2 := hc
        rw [Bool.and_eq_true] at h2
        exact of_decide_eq_true h2.2
      have hdf : dictsFor (r :: L) k = rowDict r :: dictsFor L k := by
        simp only [dictsFor, List.filterMap_cons]
        rw [if_pos hc]
      rw [hdf]
      have hbp : basePropsOf (runRow g r t) k = dictApply (basePropsOf g k) (rowDict r) := by
        rw [basePropsOf_runRow, if_pos hc]
      have hpk : (runRow g r t).papers k
          = some ⟨dictApply (basePropsOf g (rowKey r)) (rowDict r), t⟩ := by
        rw [runRow_papers, if_pos hc]
      by_cases hL : dictsFor L k = []
      · rw [if_pos hL, hpk, if_neg (List.cons_ne_nil _ _), hL]
        rw [hk]
        rfl
      · rw [if_neg hL, if_neg (List.cons_ne_nil _ _), hbp]
        rfl
    · have hc' : (rowOk r && decide (k = rowKey r)) = false := Bool.eq_false_iff.mpr hc
      have hdf : dictsFor (r :: L) k = dictsFor L k := by
        simp only [dictsFor, List.filterMap_cons]
        rw [if_neg (by simp [hc'])]
      have hpk : (runRow g r t).papers k = g.papers k := by
        rw [runRow_papers, hc']
        simp
      have hbp : basePropsOf (runRow g r t) k = basePropsOf g k := by
        rw [basePropsOf_runRow, hc']
        simp
      rw [hdf, hpk, hbp]

/-! ### Timestamp erasure and idempotence -/

theorem basePropsOf_erase (g : GraphState) (k : Cell) :
    basePropsOf (eraseImportedAt g) k = basePropsOf g k := by
  cases hgp : g.papers k <;> simp [basePropsOf, eraseImportedAt, hgp]

theorem erase_runRow (g : GraphState) (r : CsvRow) (t : Nat) :
    eraseImportedAt (runRow g r t) = runRow (eraseImportedAt g) r 0 := by
  rw [runRow_eq, runRow_eq]
  cases h : rowOk r
  · simp [h]
  · rw [if_pos rfl, if_pos rfl]
    refine GraphState.ext ?_ rfl rfl rfl rfl rfl rfl rfl rfl rfl rfl
    funext k
    have h1 : (eraseImportedAt (applyRow g r t)).papers k
        = ((applyRow g r t).papers k).map (fun n => ⟨n.props, 0⟩) := rfl
    have h2 : (applyRow (eraseImportedAt g) r 0).papers k
        = if k = rowKey r
          then some ⟨dictApply (basePropsOf (eraseImportedAt g) (rowKey r)) (rowDict r), 0⟩
          else (eraseImportedAt g).papers k := rfl
    rw [h1, h2, basePropsOf_erase]
    by_cases hk : k = rowKey r
    · rw [if_pos hk]
      have h3 : (applyRow g r t).papers k
          = some ⟨dictApply (basePropsOf g (rowKey r)) (rowDict r), t⟩ := by
        show (if k = rowKey r then _ else _) = _
        rw [if_pos hk]
      rw [h3]
      rfl
    · rw [if_neg hk]
      have h3 : (applyRow g r t).papers k = g.papers k := by
        show (if k = rowKey r then _ else _) = _
        rw [if_neg hk]
      rw [h3]
      rfl

theorem erase_importAll (L : List CsvRow) :
    ∀ (t : Nat) (g : GraphState),
    eraseImportedAt (importAll t g L) = importAll 0 (eraseImportedAt g) L := by
  induction L with
  | nil =>
    intro t g
    rfl
  | cons r L ih =>
    intro t g
    have h1 : importAll t g (r :: L) = importAll t (runRow g r t) L := rfl
    have h2 : importAll 0 (eraseImportedAt g) (r :: L)
        = importAll 0 (runRow (eraseImportedAt g) r 0) L := rfl
    rw [h1, h2, ih, erase_runRow]

theorem importAll_idem (L : List CsvRow) (t : Nat) (g : GraphState) :
    importAll t (importAll t g L) L = importAll t g L := by
  refine GraphState.ext ?_ ?_ ?_ ?_ ?_ ?_ ?_ ?_ ?_ ?_ ?_
  · funext k
    by_cases hL : dictsFor L k = []
    · simp only [importAll_papers, if_pos hL]
    · have hbp : basePropsOf (importAll t g L) k
          = dictApplySeq (dictsFor L k) (basePropsOf g k) := by
        simp only [basePropsOf, importAll_papers, if_neg hL]
      simp only [importAll_papers, if_neg hL, hbp, dictApplySeq_idem]
  · funext a
    rw [importAll_authors, importAll_authors]
    cases hlw : lastAuthorWrite L a with
    | some ti => rfl
    | none => rfl
  · funext x
    rw [importAll_keywords, importAll_keywords]
    rw [Bool.or_assoc, Bool.or_self]
  · funext x
    rw [importAll_publishers, importAll_publishers]
    rw [Bool.or_assoc, Bool.or_self]
  · funext n
    rw [importAll_journals, importAll_journals]
    cases hlw : lastJournalWrite L n with
    | some i => rfl
    | none => rfl
  · funext x
    rw [importAll_subjects, importAll_subjects]
    rw [Bool.or_assoc, Bool.or_self]
  · funext k a
    rw [importAll_authored_by, importAll_authored_by]
    rw [Bool.or_assoc, Bool.or_self]
  · funext k x
    rw [importAll_has_keyword, importAll_has_keyword]
    rw [Bool.or_assoc, Bool.or_self]
  · funext k x
    rw [importAll_published_by, importAll_published_by]
    rw [Bool.or_assoc, Bool.or_self]
  · funext k n
    rw [importAll_published_in, importAll_published_in]
    rw [Bool.or_assoc, Bool.or_self]
  · funext k x
    rw [importAll_belongs, importAll_belongs]
    rw [Bool.or_assoc, Bool.or_self]

/-! ### The orchestrator loop and its log -/

theorem import_paper_error (g : GraphState) (r : CsvRow) (t : Nat)
    (hf : rowOk r = false) : import_paper g r t = Except.error () := by
  cases hpp : paper_properties r with
  | ok d =>
    have : rowOk r = true := by simp [rowOk, hpp]
    rw [this] at hf
    exact Bool.noConfusion hf
  | error e =>
    cases e
    simp [import_paper, hpp]

theorem runRow_fail (g : GraphState) (r : CsvRow) (t : Nat)
    (hf : rowOk r = false) : runRow g r t = g := by
  rw [runRow_eq, hf]
  simp

theorem orch_fold_graph (t total : Nat) (rows : List CsvRow) :
    ∀ (g : GraphState) (idx : Nat) (log : List LogEntry),
      (rows.foldl (orchStep t total) (g, idx, log)).1 = importAll t g rows := by
  induction rows with
  | nil =>
    intro g idx log
    rfl
  | cons r rows ih =>
    intro g idx log
    rw [List.foldl_cons]
    have hall : importAll t g (r :: rows) = importAll t (runRow g r t) rows := rfl
    cases hpp : import_paper g r t with
    | ok g' =>
      have h1 : orchStep t total (g, idx, log) r
          = (g', idx + 1,
              if (idx + 1) % 10 = 0 || idx + 1 = total
              then log ++ [LogEntry.progress (idx + 1) total] else log) := by
        simp [orchStep, hpp]
      have h2 : runRow g r t = g' := by
        simp [runRow, hpp]
      rw [h1, ih, hall, h2]
    | error e =>
      have h1 : orchStep t total (g, idx, log) r
          = (g, idx + 1, log ++ [LogEntry.importError (logKey r)]) := by
        simp [orchStep, hpp]
      have h2 : runRow g r t = g := by
        simp [runRow, hpp]
      rw [h1, ih, hall, h2]

theorem import_fst (rows : List CsvRow) (flag : Bool) (t : Nat) (g : GraphState) :
    (import_to_neo4j rows flag t g).1
      = importAll t (if flag then emptyStore else g) rows := by
  simp only [import_to_neo4j]
  exact orch_fold_graph t rows.length rows _ 0 _

theorem orch_log_mono (t total : Nat) (rows : List CsvRow) :
    ∀ (s : GraphState × Nat × List LogEntry) (e : LogEntry),
      e ∈ s.2.2 → e ∈ (rows.foldl (orchStep t total) s).2.2 := by
  induction rows with
  | nil =>
    intro s e he
    exact he
  | cons r rows ih =>
    intro s e he
    rw [List.foldl_cons]
    apply ih
    obtain ⟨g, idx, log⟩ := s
    cases hpp : import_paper g r t with
    | ok g' =>
      simp only [orchStep, hpp]
      by_cases hpr : ((idx + 1) % 10 = 0 || idx + 1 = total) = true
      · rw [if_pos hpr]
        exact List.mem_append_left _ he
      · rw [if_neg hpr]
        exact he
    | error e' =>
      simp only [orchStep, hpp]
      exact List.mem_append_left _ he

theorem orch_log_err (t total : Nat) (rows : List CsvRow) :
    ∀ (s : GraphState × Nat × List LogEntry) (r : CsvRow), r ∈ rows → rowOk r = false →
      LogEntry.importError (logKey r) ∈ (rows.foldl (orchStep t total) s).2.2 := by
  induction rows with
  | nil =>
    intro s r hr
    exact absurd hr (List.not_mem_nil r)
  | cons r0 rows ih =>
    intro s r hr hf
    rw [List.foldl_cons]
    rcases List.mem_cons.mp hr with heq | hmem
    · subst heq
      obtain ⟨g, idx, log⟩ := s
      have hpe : import_paper g r t = Except.error () := import_paper_error g r t hf
      apply orch_log_mono
      simp [orchStep, hpe]
    · exact ih _ r hmem hf

theorem importAll_append (t : Nat) (g : GraphState) (L1 L2 : List CsvRow) :
    importAll t g (L1 ++ L2) = importAll t (importAll t g L1) L2 :=
  List.foldl_append _ _ _ _

/-! ### Remaining auxiliary lemmas for the claims -/

theorem extraParsed_keys (r : CsvRow) (kv : String × PVal) (h : kv ∈ extraParsed r) :
    kv.1 = "download_count" ∨ kv.1 = "cnki_citation" ∨ kv.1 = "major_field" := by
  cases hei : r.extra_info with
  | none =>
    simp only [extraParsed, hei] at h
    exact absurd h (List.not_mem_nil kv)
  | some c =>
    simp only [extraParsed, hei] at h
    exact parse_extra_info_keys c kv h

theorem rowDict_abstract (r : CsvRow) (s : PyStr)
    (h : getCellD r.abstract (Cell.str []) = Cell.str s) :
    lookupKV (rowDict r) "abstract" = some (PVal.cell (Cell.str (s.take 500))) := by
  cases hpp : paper_properties r with
  | error e =>
    simp only [paper_properties, h] at hpp
    exact Except.noConfusion hpp
  | ok d =>
    have hd : rowDict r = d := by simp [rowDict, hpp]
    rw [hd]
    simp only [paper_properties, h] at hpp
    injection hpp with hpp
    subst hpp
    by_cases hx : (extraParsed r).isEmpty = true
    · rw [if_pos hx]
      simp [lookupKV]
    · rw [if_neg hx]
      rw [lookupKV_updList]
      · simp [lookupKV]
      · intro kv hkv
        rcases extraParsed_keys r kv hkv with h1 | h1 | h1 <;> rw [h1] <;> decide

theorem lastAuthorWrite_none (rows : List CsvRow) (a : PyStr)
    (h : ∀ r ∈ rows, a ∉ rowAuthors r) : lastAuthorWrite rows a = none := by
  induction rows with
  | nil => rfl
  | cons r rows ih =>
    have h1 : lastAuthorWrite (r :: rows) a
        = (match lastAuthorWrite rows a with
           | some ti => some ti
           | none => if rowOk r && decide (a ∈ rowAuthors r) then some (rowTitle r)
                     else none) := rfl
    rw [h1, ih (fun r hr => h r (List.mem_cons_of_mem _ hr))]
    have hna : decide (a ∈ rowAuthors r) = false :=
      decide_eq_false (h r (List.mem_cons_self _ _))
    simp [hna]

/-! ### The claims -/

/-- C1: importing the same input sequence twice against the same initial
graph state yields the same nodes, edges and properties — only the always
restamped `imported_at` differs (the author `last_seen_in` hint is
overwritten with the same value), and no duplicate nodes or parallel edges
appear on the second run. -/
theorem c1_import_idempotent (rows : List CsvRow) (clear : Bool) (t1 t2 : Nat)
    (g : GraphState) :
    eraseImportedAt (import_to_neo4j rows clear t2
        (import_to_neo4j rows clear t1 g).1).1
      = eraseImportedAt (import_to_neo4j rows clear t1 g).1 := by
  rw [import_fst, import_fst]
  cases clear with
  | false =>
    simp only [Bool.false_eq_true, if_false]
    rw [erase_importAll, erase_importAll]
    exact importAll_idem rows 0 (eraseImportedAt g)
  | true =>
    rw [if_pos rfl, if_pos rfl]
    rw [erase_importAll, erase_importAll]

/-- C2: a record whose upsert raises is caught, logged with its key (or the
`N/A` placeholder), the batch continues, every other record is still fully
upserted (the final graph equals the import without the failing record), and
completion is reported over all records. -/
theorem c2_per_record_isolation (rows_pre rows_post : List CsvRow) (r : CsvRow)
    (flag : Bool) (t : Nat) (g : GraphState) (hf : rowOk r = false) :
    (import_to_neo4j (rows_pre ++ r :: rows_post) flag t g).1
        = (import_to_neo4j (rows_pre ++ rows_post) flag t g).1
    ∧ LogEntry.importError (logKey r)
        ∈ (import_to_neo4j (rows_pre ++ r :: rows_post) flag t g).2
    ∧ LogEntry.finished (rows_pre.length + 1 + rows_post.length)
        ∈ (import_to_neo4j (rows_pre ++ r :: rows_post) flag t g).2 := by
  have hsnd : ∀ (R : List CsvRow), (import_to_neo4j R flag t g).2
      = (R.foldl (orchStep t R.length)
          ((if flag then emptyStore else g), 0,
            (if flag then [LogEntry.cleared] else []) ++ [LogEntry.started R.length])).2.2
        ++ [LogEntry.finished R.length] := fun R => rfl
  refine ⟨?_, ?_, ?_⟩
  · rw [import_fst, import_fst]
    rw [importAll_append, importAll_append]
    have h1 : importAll t (importAll t (if flag then emptyStore else g) rows_pre)
        (r :: rows_post)
        = importAll t (runRow (importAll t (if flag then emptyStore else g) rows_pre) r t)
            rows_post := rfl
    rw [h1, runRow_fail _ _ _ hf]
  · rw [hsnd]
    refine List.mem_append_left _ ?_
    exact orch_log_err t _ _ _ r (by simp) hf
  · rw [hsnd]
    refine List.mem_append_right _ ?_
    have hlen : (rows_pre ++ r :: rows_post).length
        = rows_pre.length + 1 + rows_post.length := by
      simp only [List.length_append, List.length_cons]
      omega
    rw [hlen]
    exact List.mem_singleton.mpr rfl

/-- C2 witness: a concrete three-record batch whose middle record fails. -/
theorem c2_witness :
    rowOk r2bad = false
    ∧ ((import_to_neo4j ([r2a] ++ r2bad :: [r2b]) false 0 emptyStore).1
          = (import_to_neo4j ([r2a] ++ [r2b]) false 0 emptyStore).1
      ∧ LogEntry.importError (logKey r2bad)
          ∈ (import_to_neo4j ([r2a] ++ r2bad :: [r2b]) false 0 emptyStore).2
      ∧ LogEntry.finished ([r2a].length + 1 + [r2b].length)
          ∈ (import_to_neo4j ([r2a] ++ r2bad :: [r2b]) false 0 emptyStore).2) :=
  ⟨by decide, c2_per_record_isolation [r2a] [r2b] r2bad false 0 emptyStore (by decide)⟩

/-- C3 counterexample: on the worked example the parser stores the CNKI
citation fact under `cnki_citation`, not under `citation_count` as claimed. -/
theorem c3_counterexample :
    lookupKV (parse_extra_info (Cell.str exExtra)) "citation_count" = none
    ∧ lookupKV (parse_extra_info (Cell.str exExtra)) "cnki_citation"
        = some (PVal.int 5) := by
  constructor
  · decide
  · decide

/-- C3 (amended): the example parses to `{download_count: 120,
cnki_citation: 5, major_field: "Physics"}`; no `citation_count` key is ever
produced, and a `cnki_citation` fact is always an integer. -/
theorem c3_amended :
    parse_extra_info (Cell.str exExtra) =
      [("download_count", PVal.int 120), ("cnki_citation", PVal.int 5),
        ("major_field", PVal.cell (Cell.str ("Physics".toList)))]
    ∧ (∀ c : Cell, lookupKV (parse_extra_info c) "citation_count" = none)
    ∧ (∀ (c : Cell) (v : PVal),
        lookupKV (parse_extra_info c) "cnki_citation" = some v → ∃ n, v = PVal.int n) := by
  refine ⟨by decide, ?_, parse_extra_info_cnki_int⟩
  intro c
  apply lookupKV_none
  intro kv hkv
  rcases parse_extra_info_keys c kv hkv with h1 | h1 | h1 <;> rw [h1] <;> decide

/-- C3 witness: the amended statement instantiated at the worked example. -/
theorem c3_witness :
    lookupKV (parse_extra_info (Cell.str exExtra)) "cnki_citation" = some (PVal.int 5)
    ∧ ∃ n, PVal.int 5 = PVal.int n :=
  ⟨by decide, c3_amended.2.2 (Cell.str exExtra) (PVal.int 5) (by decide)⟩

/-- C4 counterexample: the author splitter keeps duplicates — `"A;A"` yields
`["A", "A"]`, not `["A"]` as the claim's deduplication requires. -/
theorem c4_counterexample :
    split_authors (Cell.str ("A;A".toList)) = ["A".toList, "A".toList] := by
  decide

/-- C4 (amended): the splitter returns the non-empty whitespace-trimmed
tokens in order of occurrence with duplicates retained; `"A; B ; "` yields
`["A", "B"]`. -/
theorem c4_amended :
    split_authors (Cell.str ("A; B ; ".toList)) = ["A".toList, "B".toList]
    ∧ split_authors (Cell.str ("A;A".toList)) = ["A".toList, "A".toList]
    ∧ (∀ (c : Cell) (x : PyStr), x ∈ split_authors c →
        x.isEmpty = false ∧ pyStrip x = x) :=
  ⟨by decide, by decide, mem_split_authors⟩

/-- C4 witness: the trimmed-and-non-empty property at a concrete token. -/
theorem c4_witness :
    ("A".toList ∈ split_authors (Cell.str ("A; B ; ".toList)))
    ∧ (("A".toList : PyStr).isEmpty = false ∧ pyStrip ("A".toList) = "A".toList) :=
  ⟨by decide, c4_amended.2.2 (Cell.str ("A; B ; ".toList)) ("A".toList) (by decide)⟩

/-- C5: with `manual_tags="AI;ML"` and `auto_tags="ML;Data"` the import
creates exactly one `HAS_KEYWORD` edge to each of `AI`, `ML`, `Data` and to
nothing else; in general the keyword edges of a successfully imported record
are the union of the tokens of both tag strings, regardless of source. -/
theorem c5_tag_union :
    (∀ x : PyStr, (runRow emptyStore r5 0).has_keyword (Cell.str ("K1".toList)) x
        = decide (x = "AI".toList ∨ x = "ML".toList ∨ x = "Data".toList))
    ∧ (∀ (g : GraphState) (r : CsvRow) (t : Nat) (x : PyStr), rowOk r = true →
        (runRow g r t).has_keyword (rowKey r) x
          = (g.has_keyword (rowKey r) x ||
              decide (x ∈ split_tags (getCellD r.manual_tags (Cell.str [])) ++
                split_tags (getCellD r.auto_tags (Cell.str []))))) := by
  have hgen : ∀ (g : GraphState) (r : CsvRow) (t : Nat) (x : PyStr), rowOk r = true →
      (runRow g r t).has_keyword (rowKey r) x
        = (g.has_keyword (rowKey r) x ||
            decide (x ∈ split_tags (getCellD r.manual_tags (Cell.str [])) ++
              split_tags (getCellD r.auto_tags (Cell.str [])))) := by
    intro g r t x hok
    rw [runRow_has_keyword, hok]
    have h1 : decide (rowKey r = rowKey r) = true := by simp
    rw [h1]
    have h2 : decide (x ∈ rowTags r)
        = decide (x ∈ split_tags (getCellD r.manual_tags (Cell.str [])) ++
            split_tags (getCellD r.auto_tags (Cell.str []))) := by
      apply decide_eq_decide.mpr
      exact mem_uniqueFirst _ _
    rw [← h2]
    simp
  refine ⟨?_, hgen⟩
  intro x
  have hk : rowKey r5 = Cell.str ("K1".toList) := by decide
  rw [← hk]
  rw [hgen emptyStore r5 0 x (by decide)]
  have hsplit : split_tags (getCellD r5.manual_tags (Cell.str [])) ++
      split_tags (getCellD r5.auto_tags (Cell.str []))
      = ["AI".toList, "ML".toList, "ML".toList, "Data".toList] := by decide
  rw [hsplit]
  have hemp : emptyStore.has_keyword (rowKey r5) x = false := rfl
  rw [hemp, Bool.false_or]
  apply decide_eq_decide.mpr
  simp only [List.mem_cons, List.not_mem_nil, or_false]
  tauto

/-- C5 witness: the union formula instantiated at the example record. -/
theorem c5_witness :
    rowOk r5 = true
    ∧ (runRow emptyStore r5 0).has_keyword (rowKey r5) ("AI".toList)
        = (emptyStore.has_keyword (rowKey r5) ("AI".toList) ||
            decide (("AI".toList : PyStr) ∈
              split_tags (getCellD r5.manual_tags (Cell.str [])) ++
                split_tags (getCellD r5.auto_tags (Cell.str [])))) :=
  ⟨by decide, c5_tag_union.2 emptyStore r5 0 ("AI".toList) (by decide)⟩

/-- C6: the abstract stored on the Paper node is exactly the first 500
characters of the source abstract; an abstract of at most 500 characters is
stored unchanged. -/
theorem c6_abstract_truncation :
    (∀ (g : GraphState) (t : Nat) (r : CsvRow) (s : PyStr),
      getCellD r.abstract (Cell.str []) = Cell.str s →
      ∃ n : PaperNode, (runRow g r t).papers (rowKey r) = some n ∧
        n.props "abstract" = some (PVal.cell (Cell.str (s.take 500))))
    ∧ (∀ (g : GraphState) (t : Nat) (r : CsvRow) (s : PyStr),
      getCellD r.abstract (Cell.str []) = Cell.str s → s.length ≤ 500 →
      ∃ n : PaperNode, (runRow g r t).papers (rowKey r) = some n ∧
        n.props "abstract" = some (PVal.cell (Cell.str s))) := by
  have hmain : ∀ (g : GraphState) (t : Nat) (r : CsvRow) (s : PyStr),
      getCellD r.abstract (Cell.str []) = Cell.str s →
      ∃ n : PaperNode, (runRow g r t).papers (rowKey r) = some n ∧
        n.props "abstract" = some (PVal.cell (Cell.str (s.take 500))) := by
    intro g t r s h
    have hok : rowOk r = true := by
      simp [rowOk, paper_properties, h]
    have hpk : (runRow g r t).papers (rowKey r)
        = some ⟨dictApply (basePropsOf g (rowKey r)) (rowDict r), t⟩ := by
      rw [runRow_papers, hok]
      simp
    refine ⟨_, hpk, ?_⟩
    show dictApply (basePropsOf g (rowKey r)) (rowDict r) "abstract" = _
    simp only [dictApply, rowDict_abstract r s h]
  refine ⟨hmain, ?_⟩
  intro g t r s h hlen
  obtain ⟨n, hn, ha⟩ := hmain g t r s h
  refine ⟨n, hn, ?_⟩
  rw [ha, List.take_of_length_le hlen]

/-- C6 witness: a 600-character abstract is stored as its first 500
characters; a 2-character abstract is stored unchanged. -/
theorem c6_witness :
    (getCellD r6a.abstract (Cell.str []) = Cell.str (List.replicate 600 'a')
      ∧ ∃ n : PaperNode, (runRow emptyStore r6a 0).papers (rowKey r6a) = some n ∧
          n.props "abstract"
            = some (PVal.cell (Cell.str ((List.replicate 600 'a').take 500))))
    ∧ ((("hi".toList : PyStr).length ≤ 500)
      ∧ ∃ n : PaperNode, (runRow emptyStore r6b 0).papers (rowKey r6b) = some n ∧
          n.props "abstract" = some (PVal.cell (Cell.str ("hi".toList)))) :=
  ⟨⟨rfl, c6_abstract_truncation.1 emptyStore 0 r6a _ rfl⟩,
   ⟨by decide, c6_abstract_truncation.2 emptyStore 0 r6b _ rfl (by decide)⟩⟩

/-- C7: evaluating the property builder at the failing input.  A record
whose `File Attachments` cell is the pandas missing value `NaN` (what an
empty CSV cell parses to) is stored with `has_pdf = true`, because Python's
`bool(nan)` is `True` — contradicting the claim that a missing or empty
attachment field yields `false`.  An absent column or an empty string does
give `false`. -/
theorem c7_nan_attachment_flag :
    (paper_properties r7).map (fun d => lookupKV d "has_pdf")
        = Except.ok (some (PVal.bool true))
    ∧ (paper_properties r7empty).map (fun d => lookupKV d "has_pdf")
        = Except.ok (some (PVal.bool false))
    ∧ (paper_properties r7missing).map (fun d => lookupKV d "has_pdf")
        = Except.ok (some (PVal.bool false)) := by
  refine ⟨?_, ?_, ?_⟩ <;> rfl

/-- C8 counterexample: a record whose abstract cell is `NaN` keeps `NaN` (not
the empty string) through the normalizer, and the downstream abstract slice
raises on it, so not every missing optional textual field defaults to the
empty string and not every downstream string operation is total. -/
theorem c8_counterexample :
    (normalizeRow r8).abstract = some Cell.nan
    ∧ rowOk (normalizeRow r8) = false := by
  constructor
  · decide
  · decide

/-- C8 (amended): only the `authors`, `manual_tags` and `auto_tags` columns
are defaulted from `NaN` to the empty string, making author/tag splitting
total; other optional textual fields (such as the abstract) keep their `NaN`
value, and the paper upsert raises on a record whose abstract is `NaN` — the
failure being caught per-record by the orchestrator. -/
theorem c8_amended (r : CsvRow) :
    (isNanCell ((normalizeRow r).authors) = false
      ∧ isNanCell ((normalizeRow r).manual_tags) = false
      ∧ isNanCell ((normalizeRow r).auto_tags) = false)
    ∧ (normalizeRow r).abstract = r.abstract
    ∧ (getCellD r.abstract (Cell.str []) = Cell.nan → rowOk (normalizeRow r) = false) := by
  refine ⟨⟨?_, ?_, ?_⟩, rfl, ?_⟩
  · rcases hv : r.authors with _ | c
    · simp [normalizeRow, fillEmpty, isNanCell, hv]
    · cases c <;> simp [normalizeRow, fillEmpty, isNanCell, hv]
  · rcases hv : r.manual_tags with _ | c
    · simp [normalizeRow, fillEmpty, isNanCell, hv]
    · cases c <;> simp [normalizeRow, fillEmpty, isNanCell, hv]
  · rcases hv : r.auto_tags with _ | c
    · simp [normalizeRow, fillEmpty, isNanCell, hv]
    · cases c <;> simp [normalizeRow, fillEmpty, isNanCell, hv]
  · intro h
    have h2 : getCellD (normalizeRow r).abstract (Cell.str []) = Cell.nan := h
    simp [rowOk, paper_properties, h2]

/-- C8 witness: the amended statement instantiated at the NaN-abstract record. -/
theorem c8_witness :
    getCellD r8.abstract (Cell.str []) = Cell.nan
    ∧ rowOk (normalizeRow r8) = false :=
  ⟨by decide, (c8_amended r8).2.2 (by decide)⟩

/-- C9: with the clear flag set, the prior graph is wiped before any record
is processed: the outcome does not depend on the prior graph at all, and any
paper, author or keyword not re-created by the current run's records is
absent from the final graph. -/
theorem c9_clear_flag :
    (∀ (rows : List CsvRow) (t : Nat) (g g' : GraphState),
      import_to_neo4j rows true t g = import_to_neo4j rows true t g')
    ∧ (∀ (rows : List CsvRow) (t : Nat) (g : GraphState) (k : Cell),
        (∀ r ∈ rows, rowKey r ≠ k) →
        (import_to_neo4j rows true t g).1.papers k = none)
    ∧ (∀ (rows : List CsvRow) (t : Nat) (g : GraphState) (a : PyStr),
        (∀ r ∈ rows, a ∉ rowAuthors r) →
        (import_to_neo4j rows true t g).1.authors a = none)
    ∧ (∀ (rows : List CsvRow) (t : Nat) (g : GraphState) (x : PyStr),
        (∀ r ∈ rows, x ∉ rowTags r) →
        (import_to_neo4j rows true t g).1.keywords x = false) := by
  refine ⟨?_, ?_, ?_, ?_⟩
  · intro rows t g g'
    rfl
  · intro rows t g k hk
    rw [import_fst, if_pos rfl, importAll_papers]
    have hdf : dictsFor rows k = [] := by
      apply List.filterMap_eq_nil_iff.mpr
      intro r hr
      have hkk : decide (k = rowKey r) = false :=
        decide_eq_false (fun he => hk r hr he.symm)
      rw [hkk, Bool.and_false]
      rfl
    rw [if_pos hdf]
    rfl
  · intro rows t g a ha
    rw [import_fst, if_pos rfl, importAll_authors, lastAuthorWrite_none rows a ha]
    rfl
  · intro rows t g x hx
    rw [import_fst, if_pos rfl, importAll_keywords]
    have hany : rows.any (fun r => rowOk r && decide (x ∈ rowTags r)) = false := by
      rw [List.any_eq_false]
      intro r hr
      simp [decide_eq_false (hx r hr)]
    rw [hany]
    rfl

/-- C9 witness: a run with the clear flag over a non-empty prior graph; the
prior paper key is gone afterwards. -/
theorem c9_witness :
    (∀ r ∈ [rw9], rowKey r ≠ Cell.str ("OLD".toList))
    ∧ (import_to_neo4j [rw9] true 3 (runRow emptyStore r5 7)).1.papers
        (Cell.str ("OLD".toList)) = none :=
  ⟨by decide,
   c9_clear_flag.2.1 [rw9] 3 (runRow emptyStore r5 7) (Cell.str ("OLD".toList)) (by decide)⟩

/-- C10: the author-splitting and the tag-splitting operations are the same
function — the source bodies of `_split_authors` and `_split_tags` are
textually identical, so one EntityExtractor contract covers both. -/
theorem c10_split_authors_eq_split_tags : ∀ c : Cell, split_authors c = split_tags c := by
  intro c
  rfl
